import Mathlib

/- Verification of the booking-conflict and availability engine of the
"Dod's Cars" car-rental application (PSE_Assessment1/Code).  The Python
repositories `CarRepo` and `BookingRepo` are shallowly embedded: the SQLite
store becomes an explicit `DB` record of rows, dates become proleptic
Gregorian ordinals (`datetime.date.toordinal`), money becomes exact
rationals, and fallible operations return `Except Err`. -/

namespace DodsCars

/-- Ordinal of Python's `datetime.date.max` (9999-12-31), the sentinel used
for open maintenance windows (`car_repo.Maint.overlaps`). -/
def dateMax : Nat := 3652059

/-- The two error classes raised by `booking_repo`/`car_repo`:
`RepoError` and `DomainError`, each carrying their message. -/
inductive Err where
  | repoErr (msg : String)
  | domainErr (msg : String)
deriving DecidableEq

/-- Booking status strings: `pending | approved | rejected`. -/
inductive Status where
  | pending
  | approved
  | rejected
deriving DecidableEq

/-- `car_repo.Car` (row of the `cars` table). -/
structure Car where
  id : Nat
  make : String
  model : String
  year : Nat
  color : Option String
  mileage : Option Nat
  daily_rate : ℚ
  available_now : Bool
  min_days : Nat
  max_days : Nat
deriving DecidableEq

/-- `car_repo.Maint` (row of the `maintenance` table); `end_date = none`
means the window is still open. -/
structure Maint where
  id : Nat
  car_id : Nat
  type : String
  cost : Option ℚ
  start_date : Nat
  end_date : Option Nat
  notes : Option String
deriving DecidableEq

/-- `booking_repo.Booking` (row of the `bookings` table). -/
structure Booking where
  id : Nat
  user_id : Nat
  car_id : Nat
  start_date : Nat
  end_date : Nat
  days : Nat
  total_fee : ℚ
  status : Status
deriving DecidableEq

/-- `booking_repo.Charge` (row of the `booking_charges` table). -/
structure Charge where
  id : Nat
  booking_id : Nat
  code : String
  amount : ℚ
deriving DecidableEq

/-- The shared SQLite store, as lists of rows in insertion (rowid) order. -/
structure DB where
  cars : List Car
  maintenance : List Maint
  bookings : List Booking
  booking_charges : List Charge
deriving DecidableEq

/-- `seed_from_csv._ranges_overlap`: half-open overlap test,
`a1 < b2 and a2 > b1`. -/
def _ranges_overlap (a1 a2 b1 b2 : Nat) : Bool :=
  a1 < b2 && a2 > b1

/-- Modelled from the spec: `ranges_overlap` is imported from `sql_repo` by
`booking_repo` and `car_repo` but its definition is absent from the sources;
spec section 4.1 defines it as
`overlap(a,b) iff a_start < b_end AND a_end > b_start`. -/
def ranges_overlap (a_start a_end b_start b_end : Nat) : Bool :=
  a_start < b_end && a_end > b_start

/-- `booking_repo.Booking.overlaps`: does this booking overlap `[s, e)`. -/
def Booking.overlaps (b : Booking) (s e : Nat) : Bool :=
  ranges_overlap b.start_date b.end_date s e

/-- `car_repo.Maint.active`: a window with no end date is active. -/
def Maint.active (m : Maint) : Bool :=
  m.end_date.isNone

/-- `car_repo.Maint.overlaps`: open maintenance (`end_date = None`) is
treated as ongoing (`date.max`) before the overlap test. -/
def Maint.overlaps (m : Maint) (s e : Nat) : Bool :=
  let m_end := m.end_date.getD dateMax
  ranges_overlap m.start_date m_end s e

/-- `booking_repo._days` / `car_repo._days`: day count of `[start, end)`,
a `DomainError` when it is not positive. -/
def _days (start_d end_d : Nat) : Except Err Nat :=
  let n : Int := (end_d : Int) - (start_d : Int)
  if n ≤ 0 then Except.error (Err.domainErr "end_date must be after start_date.")
  else Except.ok n.toNat

/-- `car_repo.Car.validate_days`: per-car min/max rental-day policy. -/
def Car.validate_days (c : Car) (days : Nat) : Except Err Unit :=
  if days < c.min_days then
    Except.error (Err.domainErr ("Minimum rental days is " ++ toString c.min_days ++ "."))
  else if days > c.max_days then
    Except.error (Err.domainErr ("Maximum rental days is " ++ toString c.max_days ++ "."))
  else Except.ok ()

/-- Python `round(x, 2)` modelled as exact rounding of a rational to cents. -/
def round2 (x : ℚ) : ℚ :=
  ((round (x * 100) : ℤ) : ℚ) / 100

/-- `booking_repo.BookingRepo._calc_fee`:
`daily_rate * days` plus the extra charge amounts, rounded to 2 dp. -/
def _calc_fee (car_daily_rate : ℚ) (days : Nat) (extras : Option (List Charge)) : ℚ :=
  let total := car_daily_rate * (days : ℚ) +
    (((extras.getD []).map (fun c => c.amount)).sum)
  round2 total

/-- SQLite rowid allocation for an insert: one more than the largest id. -/
def freshId (ids : List Nat) : Nat :=
  ids.foldr max 0 + 1

/-- `car_repo.CarRepo.get`: first `cars` row with the given id. -/
def CarRepo.get (db : DB) (car_id : Nat) : Option Car :=
  (db.cars.filter (fun c => c.id == car_id)).head?

/-- `booking_repo.BookingRepo.get`: first `bookings` row with the given id. -/
def BookingRepo.get (db : DB) (booking_id : Nat) : Option Booking :=
  (db.bookings.filter (fun b => b.id == booking_id)).head?

/-- `booking_repo.BookingRepo.charges_for`: charges of one booking. -/
def BookingRepo.charges_for (db : DB) (booking_id : Nat) : List Charge :=
  db.booking_charges.filter (fun c => c.booking_id == booking_id)

/-- `booking_repo.BookingRepo.car_has_overlap`: an APPROVED booking of the
car overlaps `[s, e)`; rows are pre-filtered with `start_date < e` and the
exact test is the entity method. -/
def BookingRepo.car_has_overlap (db : DB) (car_id : Nat) (s e : Nat) : Bool :=
  let rows := db.bookings.filter (fun b =>
    b.car_id == car_id && b.status == Status.approved && b.start_date < e)
  rows.any (fun b => b.overlaps s e)

/-- `car_repo.CarRepo.maint_overlaps`: some maintenance window of the car
overlaps `[s, e)`; rows are pre-filtered with `start_date < e` and the
exact test is the entity method. -/
def CarRepo.maint_overlaps (db : DB) (car_id : Nat) (start_date end_date : Nat) : Bool :=
  let rows := db.maintenance.filter (fun m =>
    m.car_id == car_id && m.start_date < end_date)
  rows.any (fun m => m.overlaps start_date end_date)

/-- `sql.update("bookings", where booking_id eq, changes={"status": st})`. -/
def updateStatus (db : DB) (booking_id : Nat) (st : Status) : DB :=
  { db with bookings := db.bookings.map (fun b =>
      if b.id == booking_id then { b with status := st } else b) }

/-- `sql.update("bookings", where booking_id eq, changes={"total_fee": fee})`. -/
def updateBookingFee (db : DB) (booking_id : Nat) (fee : ℚ) : DB :=
  { db with bookings := db.bookings.map (fun b =>
      if b.id == booking_id then { b with total_fee := fee } else b) }

/-- One turn of `create_pending`'s extras loop:
`self.sql.insert("booking_charges", ...)` for one extra. -/
def insertCharge (bid : Nat) (d : DB) (ex : String × ℚ) : DB :=
  { d with booking_charges := d.booking_charges ++
    [{ id := freshId (d.booking_charges.map (fun c => c.id)),
       booking_id := bid, code := ex.1, amount := ex.2 }] }

/-- `booking_repo.BookingRepo.create_pending` (UC-04): validates range and
per-car day policy, computes the fee, inserts the booking as `pending`,
then inserts the optional extras and refreshes the fee.  Returns the new
store and `self.get(bid)`. -/
def BookingRepo.create_pending (db : DB) (user_id car_id : Nat)
    (start_date end_date : Nat) (extras : List (String × ℚ)) :
    Except Err (DB × Option Booking) :=
  match CarRepo.get db car_id with
  | none => Except.error (Err.repoErr "Car not found.")
  | some car =>
    match _days start_date end_date with
    | Except.error er => Except.error er
    | Except.ok days =>
      match car.validate_days days with
      | Except.error er => Except.error er
      | Except.ok _ =>
        let total := _calc_fee car.daily_rate days none
        let bid := freshId (db.bookings.map (fun b => b.id))
        let db1 : DB := { db with bookings := db.bookings ++
          [{ id := bid, user_id := user_id, car_id := car_id,
             start_date := start_date, end_date := end_date,
             days := days, total_fee := total, status := Status.pending }] }
        let db2 :=
          if extras.isEmpty then db1
          else
            let db1x := extras.foldl (insertCharge bid) db1
            let charges := BookingRepo.charges_for db1x bid
            let total2 := _calc_fee car.daily_rate days (some charges)
            updateBookingFee db1x bid total2
        Except.ok (db2, BookingRepo.get db2 bid)

/-- `booking_repo.BookingRepo.add_charge` (UC-06). -/
def BookingRepo.add_charge (db : DB) (booking_id : Nat) (code : String) (amount : ℚ) :
    DB × Charge :=
  let cid := freshId (db.booking_charges.map (fun c => c.id))
  let ch : Charge := { id := cid, booking_id := booking_id, code := code, amount := amount }
  ({ db with booking_charges := db.booking_charges ++ [ch] }, ch)

/-- `booking_repo.BookingRepo.recalc` (UC-06): recomputes the total fee from
the car's current daily rate, the stored day count and the current extras,
and stores it. -/
def BookingRepo.recalc (db : DB) (booking_id : Nat) : Except Err (DB × ℚ) :=
  match BookingRepo.get db booking_id with
  | none => Except.error (Err.repoErr "Booking not found.")
  | some b =>
    match CarRepo.get db b.car_id with
    | none => Except.error (Err.repoErr "Car not found.")
    | some car =>
      let charges := BookingRepo.charges_for db booking_id
      let total := _calc_fee car.daily_rate b.days (some charges)
      Except.ok (updateBookingFee db booking_id total, total)

/-- `booking_repo.BookingRepo.approve` (UC-08, enforcing UC-15): only a
pending booking, no maintenance overlap, no approved-booking overlap; on
success the status flips to `approved`. -/
def BookingRepo.approve (db : DB) (booking_id : Nat) : Except Err DB :=
  match BookingRepo.get db booking_id with
  | none => Except.error (Err.repoErr "Booking not found.")
  | some b =>
    if b.status ≠ Status.pending then
      Except.error (Err.domainErr "Only pending bookings can be approved.")
    else if CarRepo.maint_overlaps db b.car_id b.start_date b.end_date then
      Except.error (Err.domainErr "Booking overlaps an active maintenance window.")
    else if BookingRepo.car_has_overlap db b.car_id b.start_date b.end_date then
      Except.error (Err.domainErr "Booking overlaps an existing approved booking.")
    else
      Except.ok (updateStatus db booking_id Status.approved)

/-- `booking_repo.BookingRepo.reject` (UC-08): only a pending booking may be
rejected; the optional reason does not affect state. -/
def BookingRepo.reject (db : DB) (booking_id : Nat) : Except Err DB :=
  match BookingRepo.get db booking_id with
  | none => Except.error (Err.repoErr "Booking not found.")
  | some b =>
    if b.status ≠ Status.pending then
      Except.error (Err.domainErr "Only pending bookings can be rejected.")
    else
      Except.ok (updateStatus db booking_id Status.rejected)

/-- `car_repo.CarRepo.maint_open` (UC-10): inserts an open window
(`end_date = None`); no conflict check of any kind. -/
def CarRepo.maint_open (db : DB) (car_id : Nat) (type : String) (start_date : Nat)
    (cost : Option ℚ) (notes : Option String) : DB × Maint :=
  let mid := freshId (db.maintenance.map (fun m => m.id))
  let m : Maint := { id := mid, car_id := car_id, type := type, cost := cost,
                     start_date := start_date, end_date := none, notes := notes }
  ({ db with maintenance := db.maintenance ++ [m] }, m)

/-- `car_repo.CarRepo.maint_close` (UC-11): sets the end date (caller's
date, or today when omitted) and optionally the notes. -/
def CarRepo.maint_close (db : DB) (maint_id : Nat) (end_date : Option Nat)
    (today : Nat) (notes : Option String) : DB :=
  let e := end_date.getD today
  { db with maintenance := db.maintenance.map (fun m =>
      if m.id == maint_id then
        { m with end_date := some e, notes := if notes.isSome then notes else m.notes }
      else m) }

/-- `car_repo.CarRepo.available_in_range` (UC-03): cars flagged available
whose policy admits the requested day count and which have no maintenance
overlap and no APPROVED-booking overlap with `[start, end)`. -/
def CarRepo.available_in_range (db : DB) (start_date end_date : Nat)
    (min_days max_days : Option Nat) : Except Err (List Car) :=
  match _days start_date end_date with
  | Except.error er => Except.error er
  | Except.ok days =>
    let cars := db.cars.filter (fun c => c.available_now)
    Except.ok <| cars.filter (fun c =>
      (match min_days with | some m => decide (m ≤ days) | none => true) &&
      (match max_days with | some m => decide (days ≤ m) | none => true) &&
      (match c.validate_days days with | Except.ok _ => true | Except.error _ => false) &&
      !(CarRepo.maint_overlaps db c.id start_date end_date) &&
      !(BookingRepo.car_has_overlap db c.id start_date end_date))

/-- Naive scan from the refinement claim: apply only the overlap predicate
to every APPROVED booking of the car, with no `start_date < e` pre-filter. -/
def car_has_overlap_naive (db : DB) (car_id : Nat) (s e : Nat) : Bool :=
  db.bookings.any (fun b =>
    b.car_id == car_id && b.status == Status.approved && b.overlaps s e)

/-- Naive scan from the refinement claim: apply only the overlap predicate
to every maintenance window of the car, with no pre-filter. -/
def maint_overlaps_naive (db : DB) (car_id : Nat) (s e : Nat) : Bool :=
  db.maintenance.any (fun m => m.car_id == car_id && m.overlaps s e)

/-- One transition of the core operations: `create_pending`, `approve`,
`reject`, `maint_open`, `maint_close`. -/
inductive Step : DB → DB → Prop where
  | create_pending (db : DB) (user_id car_id s e : Nat) (extras : List (String × ℚ))
      (db' : DB) (ob : Option Booking)
      (h : BookingRepo.create_pending db user_id car_id s e extras = Except.ok (db', ob)) :
      Step db db'
  | approve (db : DB) (booking_id : Nat) (db' : DB)
      (h : BookingRepo.approve db booking_id = Except.ok db') : Step db db'
  | reject (db : DB) (booking_id : Nat) (db' : DB)
      (h : BookingRepo.reject db booking_id = Except.ok db') : Step db db'
  | maint_open (db : DB) (car_id : Nat) (type : String) (start_date : Nat)
      (cost : Option ℚ) (notes : Option String) :
      Step db (CarRepo.maint_open db car_id type start_date cost notes).1
  | maint_close (db : DB) (maint_id : Nat) (end_date : Option Nat) (today : Nat)
      (notes : Option String) :
      Step db (CarRepo.maint_close db maint_id end_date today notes)

/-- The store holding a given car catalog and no maintenance, bookings or
charges yet. -/
def initDB (cars : List Car) : DB :=
  { cars := cars, maintenance := [], bookings := [], booking_charges := [] }

/-- States reachable from `initDB cars` by the core operations. -/
inductive Reachable (cars : List Car) : DB → Prop where
  | init : Reachable cars (initDB cars)
  | step (db db' : DB) (hr : Reachable cars db) (hs : Step db db') : Reachable cars db'

/-- Two approved bookings of the same car never overlap (a pair of the
booking half of the central invariant); vacuous unless both are approved. -/
def approvedPairOk (b1 b2 : Booking) : Prop :=
  b1.status = Status.approved → b2.status = Status.approved → b1.car_id = b2.car_id →
    ranges_overlap b1.start_date b1.end_date b2.start_date b2.end_date = false

/-- Booking half of the central invariant: pairwise over the stored rows. -/
def BookingsInv (db : DB) : Prop :=
  db.bookings.Pairwise approvedPairOk

/-- Maintenance half of the central invariant: no approved booking overlaps
any (active or closed) maintenance window of its car. -/
def MaintInv (db : DB) : Prop :=
  ∀ b ∈ db.bookings, b.status = Status.approved →
    ∀ m ∈ db.maintenance, m.car_id = b.car_id → m.overlaps b.start_date b.end_date = false

/-- The full invariant as the claim states it. -/
def FullInv (db : DB) : Prop :=
  BookingsInv db ∧ MaintInv db

/-- Distinctness of booking ids (what SQLite's rowid primary key grants). -/
def IdsInv (db : DB) : Prop :=
  (db.bookings.map (fun b => b.id)).Nodup

/- Helper lemmas. -/

theorem ranges_overlap_comm (a1 a2 b1 b2 : Nat) :
    ranges_overlap a1 a2 b1 b2 = ranges_overlap b1 b2 a1 a2 := by
  simp [ranges_overlap, Bool.and_comm]

theorem car_has_overlap_eq_naive (db : DB) (car_id s e : Nat) :
    BookingRepo.car_has_overlap db car_id s e = car_has_overlap_naive db car_id s e := by
  unfold BookingRepo.car_has_overlap car_has_overlap_naive
  rw [List.any_filter]
  congr 1
  funext b
  by_cases h : b.start_date < e <;>
    simp [Booking.overlaps, ranges_overlap, h, Bool.and_assoc]

theorem maint_overlaps_eq_naive (db : DB) (car_id s e : Nat) :
    CarRepo.maint_overlaps db car_id s e = maint_overlaps_naive db car_id s e := by
  unfold CarRepo.maint_overlaps maint_overlaps_naive
  rw [List.any_filter]
  congr 1
  funext m
  by_cases h : m.start_date < e <;>
    simp [Maint.overlaps, ranges_overlap, h, Bool.and_assoc]

theorem not_car_has_overlap (db : DB) (car_id s e : Nat)
    (h : BookingRepo.car_has_overlap db car_id s e = false) :
    ∀ b ∈ db.bookings, b.car_id = car_id → b.status = Status.approved →
      b.overlaps s e = false := by
  rw [car_has_overlap_eq_naive] at h
  intro b hb hcar hst
  have := List.any_eq_false.mp h b hb
  simpa [hcar, hst] using this

theorem not_maint_overlaps (db : DB) (car_id s e : Nat)
    (h : CarRepo.maint_overlaps db car_id s e = false) :
    ∀ m ∈ db.maintenance, m.car_id = car_id → m.overlaps s e = false := by
  rw [maint_overlaps_eq_naive] at h
  intro m hm hcar
  have := List.any_eq_false.mp h m hm
  simpa [hcar] using this

theorem le_foldr_max (ids : List Nat) : ∀ n ∈ ids, n ≤ ids.foldr max 0 := by
  induction ids with
  | nil => simp
  | cons a l ih =>
    intro n hn
    rcases List.mem_cons.mp hn with rfl | hmem
    · exact le_max_left _ _
    · exact le_trans (ih n hmem) (le_max_right _ _)

theorem lt_freshId (ids : List Nat) : ∀ n ∈ ids, n < freshId ids := by
  intro n hn
  exact Nat.lt_succ_of_le (le_foldr_max ids n hn)

theorem _days_ok (s e : Nat) (h : s < e) : _days s e = Except.ok (e - s) := by
  unfold _days
  rw [if_neg (by omega)]
  congr 1
  omega

theorem _days_err (s e : Nat) (h : e ≤ s) :
    _days s e = Except.error (Err.domainErr "end_date must be after start_date.") := by
  unfold _days
  rw [if_pos (by omega)]

theorem validate_days_ok (c : Car) (days : Nat)
    (h1 : c.min_days ≤ days) (h2 : days ≤ c.max_days) :
    c.validate_days days = Except.ok () := by
  unfold Car.validate_days
  rw [if_neg (by omega), if_neg (by omega)]

theorem validate_days_err_min (c : Car) (days : Nat) (h : days < c.min_days) :
    c.validate_days days =
      Except.error (Err.domainErr ("Minimum rental days is " ++ toString c.min_days ++ ".")) := by
  unfold Car.validate_days
  rw [if_pos h]

theorem validate_days_err_max (c : Car) (days : Nat)
    (h1 : c.min_days ≤ days) (h : c.max_days < days) :
    c.validate_days days =
      Except.error (Err.domainErr ("Maximum rental days is " ++ toString c.max_days ++ ".")) := by
  unfold Car.validate_days
  rw [if_neg (by omega), if_pos (by omega)]

theorem head?_filter_mem {α : Type} (l : List α) (p : α → Bool) (a : α)
    (h : (l.filter p).head? = some a) : a ∈ l ∧ p a = true := by
  have hmem : a ∈ l.filter p := by
    cases hl : l.filter p with
    | nil => rw [hl] at h; cases h
    | cons x t =>
      rw [hl] at h
      simp only [List.head?_cons, Option.some.injEq] at h
      simp [hl, h]
  simpa using List.mem_filter.mp hmem

theorem BookingRepo.get_some (db : DB) (bid : Nat) (b : Booking)
    (h : BookingRepo.get db bid = some b) : b ∈ db.bookings ∧ b.id = bid := by
  have := head?_filter_mem db.bookings (fun x => x.id == bid) b h
  simpa using this

theorem filter_append_fresh (l : List Booking) (b : Booking) (bid : Nat)
    (hb : b.id = bid) (hfresh : ∀ x ∈ l, x.id ≠ bid) :
    ((l ++ [b]).filter (fun x => x.id == bid)).head? = some b := by
  rw [List.filter_append]
  have hnil : l.filter (fun x => x.id == bid) = [] := by
    apply List.filter_eq_nil_iff.mpr
    intro x hx
    simpa using hfresh x hx
  simp [hnil, hb]

theorem eq_of_mem_of_id_eq (l : List Booking)
    (hn : (l.map (fun x => x.id)).Nodup) {x y : Booking}
    (hx : x ∈ l) (hy : y ∈ l) (hid : x.id = y.id) : x = y :=
  List.inj_on_of_nodup_map hn hx hy hid

theorem head?_filter_id_of_nodup (l : List Booking) (b : Booking)
    (hn : (l.map (fun x => x.id)).Nodup) (hb : b ∈ l) :
    (l.filter (fun x => x.id == b.id)).head? = some b := by
  induction l with
  | nil => cases hb
  | cons a t ih =>
    rw [List.map_cons] at hn
    have hn' := List.nodup_cons.mp hn
    rcases List.mem_cons.mp hb with rfl | hmem
    · simp [List.filter_cons]
    · have hane : (a.id == b.id) = false := by
        simp only [beq_eq_false_iff_ne, ne_eq]
        intro hcontra
        exact hn'.1 (hcontra ▸ List.mem_map_of_mem (fun x => x.id) hmem)
      simp only [List.filter_cons, hane, Bool.false_eq_true, if_false]
      exact ih hn'.2 hmem

theorem get_of_mem_of_nodup (db : DB) (b : Booking) (hn : IdsInv db)
    (hb : b ∈ db.bookings) : BookingRepo.get db b.id = some b :=
  head?_filter_id_of_nodup db.bookings b hn hb

theorem foldl_insertCharge_bookings (ex : List (String × ℚ)) (bid : Nat) (d : DB) :
    (ex.foldl (insertCharge bid) d).bookings = d.bookings := by
  induction ex generalizing d with
  | nil => rfl
  | cons a t ih => simpa [insertCharge] using ih _

theorem foldl_insertCharge_cars (ex : List (String × ℚ)) (bid : Nat) (d : DB) :
    (ex.foldl (insertCharge bid) d).cars = d.cars := by
  induction ex generalizing d with
  | nil => rfl
  | cons a t ih => simpa [insertCharge] using ih _

theorem foldl_insertCharge_maintenance (ex : List (String × ℚ)) (bid : Nat) (d : DB) :
    (ex.foldl (insertCharge bid) d).maintenance = d.maintenance := by
  induction ex generalizing d with
  | nil => rfl
  | cons a t ih => simpa [insertCharge] using ih _

theorem map_updateFee_append (l : List Booking) (newB : Booking) (bid : Nat) (fee : ℚ)
    (hb : newB.id = bid) (hfresh : ∀ x ∈ l, x.id ≠ bid) :
    (l ++ [newB]).map (fun x => if x.id == bid then { x with total_fee := fee } else x) =
      l ++ [{ newB with total_fee := fee }] := by
  rw [List.map_append]
  congr 1
  · have : ∀ x ∈ l, (fun x => if x.id == bid then { x with total_fee := fee } else x) x = id x := by
      intro x hx
      simp [hfresh x hx]
    rw [List.map_congr_left this, List.map_id]
  · simp [hb]

theorem create_pending_success (db : DB) (u cid s e : Nat) (ex : List (String × ℚ))
    (car : Car) (days : Nat)
    (hcar : CarRepo.get db cid = some car)
    (hdays : _days s e = Except.ok days)
    (hval : car.validate_days days = Except.ok ()) :
    ∃ db' b, BookingRepo.create_pending db u cid s e ex = Except.ok (db', some b) ∧
      b.id = freshId (db.bookings.map (fun x => x.id)) ∧
      b.user_id = u ∧ b.car_id = cid ∧ b.start_date = s ∧ b.end_date = e ∧
      b.days = days ∧ b.status = Status.pending ∧
      db'.bookings = db.bookings ++ [b] ∧
      db'.cars = db.cars ∧ db'.maintenance = db.maintenance := by
  have hfresh : ∀ x ∈ db.bookings, x.id ≠ freshId (db.bookings.map (fun x => x.id)) := by
    intro x hx
    exact Nat.ne_of_lt (lt_freshId _ _ (List.mem_map_of_mem _ hx))
  unfold BookingRepo.create_pending
  rw [hcar]
  dsimp only
  rw [hdays]
  dsimp only
  rw [hval]
  dsimp only
  by_cases hex : ex.isEmpty
  · rw [if_pos hex]
    have hget : BookingRepo.get
        { cars := db.cars, maintenance := db.maintenance,
          bookings := db.bookings ++
            [{ id := freshId (List.map (fun b => b.id) db.bookings), user_id := u, car_id := cid,
               start_date := s, end_date := e, days := days,
               total_fee := _calc_fee car.daily_rate days none, status := Status.pending }],
          booking_charges := db.booking_charges }
        (freshId (List.map (fun b => b.id) db.bookings)) = some
          { id := freshId (List.map (fun b => b.id) db.bookings), user_id := u, car_id := cid,
            start_date := s, end_date := e, days := days,
            total_fee := _calc_fee car.daily_rate days none, status := Status.pending } := by
      unfold BookingRepo.get
      exact filter_append_fresh db.bookings _ _ rfl hfresh
    rw [hget]
    exact ⟨_, _, rfl, rfl, rfl, rfl, rfl, rfl, rfl, rfl, rfl, rfl, rfl⟩
  · rw [if_neg hex]
    set bid := freshId (List.map (fun b => b.id) db.bookings) with hbid
    set B := ({ id := bid, user_id := u, car_id := cid, start_date := s, end_date := e, days := days, total_fee := _calc_fee car.daily_rate days none, status := Status.pending } : Booking) with hB
    set db1 := ({ cars := db.cars, maintenance := db.maintenance, bookings := db.bookings ++ [B], booking_charges := db.booking_charges } : DB) with hdb1
    set dbx := ex.foldl (insertCharge bid) db1 with hdbx
    set fee := _calc_fee car.daily_rate days (some (BookingRepo.charges_for dbx bid)) with hfee
    have hbkx : dbx.bookings = db.bookings ++ [B] := by
      rw [hdbx, foldl_insertCharge_bookings, hdb1]
    have hupd : (updateBookingFee dbx bid fee).bookings =
        db.bookings ++ [{ B with total_fee := fee }] := by
      unfold updateBookingFee
      dsimp only
      rw [hbkx]
      exact map_updateFee_append db.bookings B bid fee (by rw [hB]) hfresh
    have hget : BookingRepo.get (updateBookingFee dbx bid fee) bid =
        some { B with total_fee := fee } := by
      unfold BookingRepo.get
      rw [hupd]
      exact filter_append_fresh db.bookings _ bid (by rw [hB]) hfresh
    rw [hget]
    refine ⟨_, _, rfl, ?_, ?_, ?_, ?_, ?_, ?_, ?_, ?_, ?_, ?_⟩
    · rw [hB]
    · rw [hB]
    · rw [hB]
    · rw [hB]
    · rw [hB]
    · rw [hB]
    · rw [hB]
    · exact hupd
    · rw [hdbx]
      show (ex.foldl (insertCharge bid) db1).cars = db.cars
      rw [foldl_insertCharge_cars, hdb1]
    · rw [hdbx]
      show (ex.foldl (insertCharge bid) db1).maintenance = db.maintenance
      rw [foldl_insertCharge_maintenance, hdb1]

theorem updateStatus_cars (db : DB) (bid : Nat) (st : Status) :
    (updateStatus db bid st).cars = db.cars := rfl

theorem updateStatus_maintenance (db : DB) (bid : Nat) (st : Status) :
    (updateStatus db bid st).maintenance = db.maintenance := rfl

theorem updateBookingFee_cars (db : DB) (bid : Nat) (fee : ℚ) :
    (updateBookingFee db bid fee).cars = db.cars := rfl

theorem updateBookingFee_maintenance (db : DB) (bid : Nat) (fee : ℚ) :
    (updateBookingFee db bid fee).maintenance = db.maintenance := rfl

theorem updateBookingFee_charges (db : DB) (bid : Nat) (fee : ℚ) :
    (updateBookingFee db bid fee).booking_charges = db.booking_charges := rfl

theorem create_pending_ok_shape (db : DB) (u cid s e : Nat) (ex : List (String × ℚ))
    (db' : DB) (ob : Option Booking)
    (h : BookingRepo.create_pending db u cid s e ex = Except.ok (db', ob)) :
    ∃ b : Booking, ob = some b ∧
      b.id = freshId (db.bookings.map (fun x => x.id)) ∧
      b.status = Status.pending ∧
      db'.bookings = db.bookings ++ [b] ∧
      db'.cars = db.cars ∧ db'.maintenance = db.maintenance := by
  cases hcar : CarRepo.get db cid with
  | none =>
    unfold BookingRepo.create_pending at h
    rw [hcar] at h
    cases h
  | some car =>
    cases hdays : _days s e with
    | error er =>
      unfold BookingRepo.create_pending at h
      rw [hcar] at h
      dsimp only at h
      rw [hdays] at h
      cases h
    | ok days =>
      cases hval : car.validate_days days with
      | error er =>
        unfold BookingRepo.create_pending at h
        rw [hcar] at h
        dsimp only at h
        rw [hdays] at h
        dsimp only at h
        rw [hval] at h
        cases h
      | ok uu =>
        obtain ⟨db2, b, heq, hid, _, _, _, _, _, hstat, hbk, hcars, hmaint⟩ :=
          create_pending_success db u cid s e ex car days hcar hdays hval
        have hinj := heq.symm.trans h
        simp only [Except.ok.injEq, Prod.mk.injEq] at hinj
        obtain ⟨rfl, rfl⟩ := hinj
        exact ⟨b, rfl, hid, hstat, hbk, hcars, hmaint⟩

theorem approve_ok_shape (db : DB) (bid : Nat) (db' : DB)
    (h : BookingRepo.approve db bid = Except.ok db') :
    ∃ b : Booking, BookingRepo.get db bid = some b ∧ b.status = Status.pending ∧
      CarRepo.maint_overlaps db b.car_id b.start_date b.end_date = false ∧
      BookingRepo.car_has_overlap db b.car_id b.start_date b.end_date = false ∧
      db' = updateStatus db bid Status.approved := by
  unfold BookingRepo.approve at h
  cases hget : BookingRepo.get db bid with
  | none => rw [hget] at h; cases h
  | some b =>
    rw [hget] at h
    dsimp only at h
    by_cases hst : b.status ≠ Status.pending
    · rw [if_pos hst] at h; cases h
    · rw [if_neg hst] at h
      push_neg at hst
      by_cases hm : CarRepo.maint_overlaps db b.car_id b.start_date b.end_date = true
      · rw [if_pos hm] at h; cases h
      · rw [if_neg hm] at h
        by_cases ho : BookingRepo.car_has_overlap db b.car_id b.start_date b.end_date = true
        · rw [if_pos ho] at h; cases h
        · rw [if_neg ho] at h
          simp only [Except.ok.injEq] at h
          exact ⟨b, rfl, hst, by simpa using hm, by simpa using ho, h.symm⟩

theorem reject_ok_shape (db : DB) (bid : Nat) (db' : DB)
    (h : BookingRepo.reject db bid = Except.ok db') :
    ∃ b : Booking, BookingRepo.get db bid = some b ∧ b.status = Status.pending ∧
      db' = updateStatus db bid Status.rejected := by
  unfold BookingRepo.reject at h
  cases hget : BookingRepo.get db bid with
  | none => rw [hget] at h; cases h
  | some b =>
    rw [hget] at h
    dsimp only at h
    by_cases hst : b.status ≠ Status.pending
    · rw [if_pos hst] at h; cases h
    · rw [if_neg hst] at h
      push_neg at hst
      simp only [Except.ok.injEq] at h
      exact ⟨b, rfl, hst, h.symm⟩

theorem bookingsInv_updateStatus_approved (db : DB) (bid : Nat) (bk : Booking)
    (hn : IdsInv db) (hinv : BookingsInv db)
    (hget : BookingRepo.get db bid = some bk)
    (hno : BookingRepo.car_has_overlap db bk.car_id bk.start_date bk.end_date = false) :
    BookingsInv (updateStatus db bid Status.approved) := by
  obtain ⟨hmem, hbkid⟩ := BookingRepo.get_some db bid bk hget
  have hnb := not_car_has_overlap db bk.car_id bk.start_date bk.end_date hno
  have hnodup : db.bookings.Nodup := List.Nodup.of_map _ hn
  unfold BookingsInv updateStatus
  dsimp only
  rw [List.pairwise_map]
  refine (hinv.and hnodup).imp_of_mem ?_
  intro x y hx hy hR
  obtain ⟨hRxy, hne⟩ := hR
  by_cases hxid : x.id = bid
  · have hxbk : x = bk := eq_of_mem_of_id_eq db.bookings hn hx hmem (by rw [hxid, hbkid])
    by_cases hyid : y.id = bid
    · have hybk : y = bk := eq_of_mem_of_id_eq db.bookings hn hy hmem (by rw [hyid, hbkid])
      exact absurd (hxbk.trans hybk.symm) hne
    · subst hxbk
      have hxif : (if x.id == bid then { x with status := Status.approved } else x) =
          { x with status := Status.approved } := by simp [hxid]
      have hyif : (if y.id == bid then { y with status := Status.approved } else y) = y := by
        simp [hyid]
      rw [hxif, hyif]
      intro _ hyApp hcar
      show ranges_overlap x.start_date x.end_date y.start_date y.end_date = false
      rw [ranges_overlap_comm]
      exact hnb y hy (by exact hcar.symm) hyApp
  · by_cases hyid : y.id = bid
    · have hybk : y = bk := eq_of_mem_of_id_eq db.bookings hn hy hmem (by rw [hyid, hbkid])
      subst hybk
      have hxif : (if x.id == bid then { x with status := Status.approved } else x) = x := by
        simp [hxid]
      have hyif : (if y.id == bid then { y with status := Status.approved } else y) =
          { y with status := Status.approved } := by simp [hyid]
      rw [hxif, hyif]
      intro hxApp _ hcar
      show ranges_overlap x.start_date x.end_date y.start_date y.end_date = false
      exact hnb x hx (by exact hcar) hxApp
    · have hxif : (if x.id == bid then { x with status := Status.approved } else x) = x := by
        simp [hxid]
      have hyif : (if y.id == bid then { y with status := Status.approved } else y) = y := by
        simp [hyid]
      rw [hxif, hyif]
      exact hRxy

theorem bookingsInv_updateStatus_rejected (db : DB) (bid : Nat)
    (hinv : BookingsInv db) :
    BookingsInv (updateStatus db bid Status.rejected) := by
  unfold BookingsInv updateStatus
  dsimp only
  rw [List.pairwise_map]
  refine hinv.imp ?_
  intro x y hR
  by_cases hxid : x.id = bid
  · have hxif : (if x.id == bid then { x with status := Status.rejected } else x) =
        { x with status := Status.rejected } := by simp [hxid]
    rw [hxif]
    intro hApp
    cases hApp
  · have hxif : (if x.id == bid then { x with status := Status.rejected } else x) = x := by
      simp [hxid]
    rw [hxif]
    by_cases hyid : y.id = bid
    · have hyif : (if y.id == bid then { y with status := Status.rejected } else y) =
          { y with status := Status.rejected } := by simp [hyid]
      rw [hyif]
      intro _ hApp
      cases hApp
    · have hyif : (if y.id == bid then { y with status := Status.rejected } else y) = y := by
        simp [hyid]
      rw [hyif]
      exact hR

theorem idsInv_updateStatus (db : DB) (bid : Nat) (st : Status) (hn : IdsInv db) :
    IdsInv (updateStatus db bid st) := by
  unfold IdsInv updateStatus
  dsimp only
  rw [List.map_map]
  have hcomp : ((fun b : Booking => b.id) ∘
      fun b : Booking => if b.id == bid then { b with status := st } else b) =
      (fun b : Booking => b.id) := by
    funext x
    by_cases hx : x.id = bid <;> simp [Function.comp, hx]
  rw [hcomp]
  exact hn

theorem reachable_inv (cars : List Car) (db : DB) (h : Reachable cars db) :
    BookingsInv db ∧ IdsInv db := by
  induction h with
  | init => exact ⟨List.Pairwise.nil, by simp [IdsInv, initDB]⟩
  | step db db' hr hs ih =>
    obtain ⟨hbi, hids⟩ := ih
    cases hs with
    | create_pending u cid s e ex _ ob hok =>
      obtain ⟨b, hob, hidb, hstat, hbk, hcars, hmaint⟩ :=
        create_pending_ok_shape db u cid s e ex db' ob hok
      constructor
      · unfold BookingsInv
        rw [hbk]
        refine List.pairwise_append.mpr ⟨hbi, List.pairwise_singleton _ _, ?_⟩
        intro x hx y hy
        have hyb : y = b := by simpa using hy
        subst hyb
        intro _ hApp _
        rw [hstat] at hApp
        cases hApp
      · unfold IdsInv
        rw [hbk, List.map_append]
        refine List.nodup_append.mpr ⟨hids, by simp, ?_⟩
        intro a ha hb
        have hab : a = b.id := by simpa using hb
        subst hab
        rw [hidb] at ha
        exact absurd ha (by
          intro hmm
          exact absurd rfl (Nat.ne_of_lt (lt_freshId _ _ hmm)))
    | approve bid _ hok =>
      obtain ⟨bk, hget, hst, hm, ho, rfl⟩ := approve_ok_shape db bid db' hok
      exact ⟨bookingsInv_updateStatus_approved db bid bk hids hbi hget ho,
        idsInv_updateStatus db bid Status.approved hids⟩
    | reject bid _ hok =>
      obtain ⟨bk, hget, hst, rfl⟩ := reject_ok_shape db bid db' hok
      exact ⟨bookingsInv_updateStatus_rejected db bid hbi,
        idsInv_updateStatus db bid Status.rejected hids⟩
    | maint_open cid ty sd cost notes => exact ⟨hbi, hids⟩
    | maint_close mid ed today notes => exact ⟨hbi, hids⟩

theorem get_updateStatus (db : DB) (bid : Nat) (b : Booking) (st : Status)
    (hb : BookingRepo.get db bid = some b) :
    BookingRepo.get (updateStatus db bid st) bid = some { b with status := st } := by
  obtain ⟨hmem, hbid⟩ := BookingRepo.get_some db bid b hb
  unfold BookingRepo.get updateStatus at *
  dsimp only at *
  rw [List.filter_map]
  have hpf : ∀ x ∈ db.bookings,
      ((fun x : Booking => x.id == bid) ∘
        (fun x : Booking => if x.id == bid then { x with status := st } else x)) x =
      (x.id == bid) := by
    intro x _
    by_cases hx : x.id = bid <;> simp [Function.comp, hx]
  rw [List.filter_congr hpf, List.head?_map, hb]
  simp [hbid]

theorem get_updateBookingFee (db : DB) (bid : Nat) (b : Booking) (fee : ℚ)
    (hb : BookingRepo.get db bid = some b) :
    BookingRepo.get (updateBookingFee db bid fee) bid = some { b with total_fee := fee } := by
  obtain ⟨hmem, hbid⟩ := BookingRepo.get_some db bid b hb
  unfold BookingRepo.get updateBookingFee at *
  dsimp only at *
  rw [List.filter_map]
  have hpf : ∀ x ∈ db.bookings,
      ((fun x : Booking => x.id == bid) ∘
        (fun x : Booking => if x.id == bid then { x with total_fee := fee } else x)) x =
      (x.id == bid) := by
    intro x _
    by_cases hx : x.id = bid <;> simp [Function.comp, hx]
  rw [List.filter_congr hpf, List.head?_map, hb]
  simp [hbid]

theorem updateBookingFee_idem (db : DB) (bid : Nat) (fee : ℚ) :
    updateBookingFee (updateBookingFee db bid fee) bid fee = updateBookingFee db bid fee := by
  unfold updateBookingFee
  dsimp only
  rw [List.map_map]
  have hpt : ∀ x ∈ db.bookings,
      ((fun b : Booking => if b.id == bid then { b with total_fee := fee } else b) ∘
        (fun b : Booking => if b.id == bid then { b with total_fee := fee } else b)) x =
      (fun b : Booking => if b.id == bid then { b with total_fee := fee } else b) x := by
    intro x _
    by_cases hx : x.id = bid <;> simp [Function.comp, hx]
  rw [List.map_congr_left hpt]

/- Concrete example data used by witnesses and counterexamples. -/

/-- A generally-available example car. -/
def exCar : Car :=
  { id := 1, make := "Toyota", model := "Corolla", year := 2020, color := none,
    mileage := none, daily_rate := 50, available_now := true,
    min_days := 1, max_days := 30 }

def exCars : List Car := [exCar]

def exDb0 : DB := initDB exCars

/-- The booking `create_pending exDb0 7 1 10 12 []` inserts. -/
def exB : Booking :=
  { id := 1, user_id := 7, car_id := 1, start_date := 10, end_date := 12,
    days := 2, total_fee := _calc_fee exCar.daily_rate 2 none, status := Status.pending }

def exDb1 : DB :=
  { cars := exCars, maintenance := [], bookings := [exB], booking_charges := [] }

def exDb2 : DB :=
  { cars := exCars, maintenance := [],
    bookings := [{ exB with status := Status.approved }], booking_charges := [] }

/-- The window `maint_open exDb2 1 "svc" 5 none none` inserts. -/
def exM : Maint :=
  { id := 1, car_id := 1, type := "svc", cost := none, start_date := 5,
    end_date := none, notes := none }

def exDb3 : DB :=
  { cars := exCars, maintenance := [exM],
    bookings := [{ exB with status := Status.approved }], booking_charges := [] }

theorem exDb1_create : BookingRepo.create_pending exDb0 7 1 10 12 [] =
    Except.ok (exDb1, some exB) := rfl

theorem exDb2_approve : BookingRepo.approve exDb1 1 = Except.ok exDb2 := rfl

theorem exDb3_step : Step exDb2 exDb3 :=
  Step.maint_open exDb2 1 "svc" 5 none none

/-- C10: for every store, car and range, the pre-filtered scans
`car_has_overlap` and `maint_overlaps` (SQL `start_date < e` pre-filter,
then the exact entity overlap test row by row) return the same boolean as
the naive scans that apply only the overlap predicate to every approved
booking (resp. every maintenance window) of that car: the pre-filter
discards no overlapping row. -/
theorem prefilter_refines_naive_scan (db : DB) (car_id s e : Nat) :
    BookingRepo.car_has_overlap db car_id s e = car_has_overlap_naive db car_id s e ∧
    CarRepo.maint_overlaps db car_id s e = maint_overlaps_naive db car_id s e :=
  ⟨car_has_overlap_eq_naive db car_id s e, maint_overlaps_eq_naive db car_id s e⟩

/-- C4: the interval overlap predicate returns true iff
`a_start < b_end ∧ a_end > b_start` (and `sql_repo.ranges_overlap`,
modelled from the spec, agrees with `seed_from_csv._ranges_overlap`);
for genuine (non-empty) half-open ranges this holds exactly when the two
ranges share at least one day. -/
theorem ranges_overlap_spec (a1 a2 b1 b2 : Nat) :
    (_ranges_overlap a1 a2 b1 b2 = true ↔ a1 < b2 ∧ a2 > b1) ∧
    ranges_overlap a1 a2 b1 b2 = _ranges_overlap a1 a2 b1 b2 ∧
    (a1 < a2 → b1 < b2 →
      (_ranges_overlap a1 a2 b1 b2 = true ↔
        ∃ d, (a1 ≤ d ∧ d < a2) ∧ (b1 ≤ d ∧ d < b2))) := by
  refine ⟨by simp [_ranges_overlap], rfl, ?_⟩
  intro ha hb
  simp only [_ranges_overlap, Bool.and_eq_true, decide_eq_true_eq]
  constructor
  · rintro ⟨h1, h2⟩
    exact ⟨max a1 b1, by omega⟩
  · rintro ⟨d, ⟨hd1, hd2⟩, hd3, hd4⟩
    constructor <;> omega

theorem ranges_overlap_spec_witness :
    ∃ d, (10 ≤ d ∧ d < 13) ∧ (12 ≤ d ∧ d < 15) :=
  ((ranges_overlap_spec 10 13 12 15).2.2 (by decide) (by decide)).mp (by decide)

/-- C2: approving a pending booking fails with the maintenance-conflict
domain error whenever some maintenance window of its car overlaps its
stored range; otherwise it fails with the booking-conflict domain error
whenever some approved booking of the car overlaps; only when neither
conflict exists does approval succeed, flipping the status to approved.
In the error cases the returned `Except.error` carries no new store, i.e.
the booking row (still `pending`) is untouched. -/
theorem approve_conflict_behaviour (db : DB) (bid : Nat) (b : Booking)
    (hget : BookingRepo.get db bid = some b) (hp : b.status = Status.pending) :
    (maint_overlaps_naive db b.car_id b.start_date b.end_date = true →
      BookingRepo.approve db bid =
        Except.error (Err.domainErr "Booking overlaps an active maintenance window.")) ∧
    (maint_overlaps_naive db b.car_id b.start_date b.end_date = false →
      car_has_overlap_naive db b.car_id b.start_date b.end_date = true →
      BookingRepo.approve db bid =
        Except.error (Err.domainErr "Booking overlaps an existing approved booking.")) ∧
    (maint_overlaps_naive db b.car_id b.start_date b.end_date = false →
      car_has_overlap_naive db b.car_id b.start_date b.end_date = false →
      BookingRepo.approve db bid = Except.ok (updateStatus db bid Status.approved) ∧
      BookingRepo.get (updateStatus db bid Status.approved) bid =
        some { b with status := Status.approved }) := by
  have hnp : ¬(b.status ≠ Status.pending) := by simp [hp]
  refine ⟨?_, ?_, ?_⟩
  · intro hm
    unfold BookingRepo.approve
    rw [hget]
    dsimp only
    rw [if_neg hnp, maint_overlaps_eq_naive, hm]
    simp
  · intro hm ho
    unfold BookingRepo.approve
    rw [hget]
    dsimp only
    rw [if_neg hnp, maint_overlaps_eq_naive, hm, car_has_overlap_eq_naive, ho]
    simp
  · intro hm ho
    refine ⟨?_, get_updateStatus db bid b Status.approved hget⟩
    unfold BookingRepo.approve
    rw [hget]
    dsimp only
    rw [if_neg hnp, maint_overlaps_eq_naive, hm, car_has_overlap_eq_naive, ho]
    simp

/-- A pending booking over a store whose car has an open maintenance
window covering the booked range. -/
def exBP : Booking :=
  { id := 1, user_id := 7, car_id := 1, start_date := 10, end_date := 12,
    days := 2, total_fee := 100, status := Status.pending }

def exDbPM : DB :=
  { cars := exCars, maintenance := [exM], bookings := [exBP], booking_charges := [] }

theorem approve_conflict_behaviour_witness :
    BookingRepo.approve exDbPM 1 =
      Except.error (Err.domainErr "Booking overlaps an active maintenance window.") :=
  (approve_conflict_behaviour exDbPM 1 exBP rfl rfl).1 rfl

/-- C5: an open maintenance window (`end_date = None`) starting at `w` is
treated as running to `date.max`, hence counts as overlapping every valid
requested range `[s, e)` with `s ≥ w`, and the car stays excluded from
`available_in_range` until the window is explicitly closed. -/
theorem open_maint_blocks_availability (db : DB) (m : Maint) (c : Car) (s e : Nat)
    (hm : m ∈ db.maintenance) (hcar : m.car_id = c.id) (hopen : m.end_date = none)
    (hse : s < e) (hws : m.start_date ≤ s) (hbound : e ≤ dateMax) :
    m.end_date.getD dateMax = dateMax ∧
    m.overlaps s e = true ∧
    ∀ l, CarRepo.available_in_range db s e none none = Except.ok l → c ∉ l := by
  have h2 : m.overlaps s e = true := by
    unfold Maint.overlaps ranges_overlap
    rw [hopen]
    simp only [Option.getD_none, Bool.and_eq_true, decide_eq_true_eq]
    omega
  refine ⟨by rw [hopen]; rfl, h2, ?_⟩
  intro l hl hcl
  unfold CarRepo.available_in_range at hl
  rw [_days_ok s e hse] at hl
  dsimp only at hl
  simp only [Except.ok.injEq] at hl
  subst hl
  have hpred := (List.mem_filter.mp hcl).2
  have hmo : CarRepo.maint_overlaps db c.id s e = true := by
    rw [maint_overlaps_eq_naive]
    unfold maint_overlaps_naive
    refine List.any_eq_true.mpr ⟨m, hm, ?_⟩
    simp [hcar, h2]
  rw [hmo] at hpred
  simp at hpred

def exCarM : Car :=
  { id := 1, make := "Toyota", model := "Corolla", year := 2020, color := none,
    mileage := none, daily_rate := 50, available_now := true,
    min_days := 1, max_days := 30 }

def exDbM : DB :=
  { cars := [exCarM], maintenance := [exM], bookings := [], booking_charges := [] }

theorem open_maint_blocks_availability_witness :
    exM.overlaps 10 12 = true ∧ exCarM ∉ ([] : List Car) :=
  have h := open_maint_blocks_availability exDbM exM exCarM 10 12
    (List.mem_singleton.mpr rfl) rfl rfl (by decide) (by decide) (by decide)
  ⟨h.2.1, h.2.2 [] rfl⟩

/-- C3 (amended): completeness of the availability query.  Every car that
is flagged generally available (`available_now`), whose per-car policy
admits the requested day count, and that has no maintenance window and no
APPROVED booking overlapping `[s, e)`, appears in
`available_in_range s e`.  The hypotheses constrain only approved
bookings, so pending and rejected bookings never exclude a car. -/
theorem available_in_range_complete (db : DB) (s e : Nat) (c : Car)
    (hse : s < e) (hc : c ∈ db.cars) (havail : c.available_now = true)
    (hmin : c.min_days ≤ e - s) (hmax : e - s ≤ c.max_days)
    (hm : ∀ m ∈ db.maintenance, m.car_id = c.id → m.overlaps s e = false)
    (hb : ∀ b ∈ db.bookings, b.car_id = c.id → b.status = Status.approved →
      b.overlaps s e = false) :
    ∃ l, CarRepo.available_in_range db s e none none = Except.ok l ∧ c ∈ l := by
  unfold CarRepo.available_in_range
  rw [_days_ok s e hse]
  dsimp only
  refine ⟨_, rfl, ?_⟩
  apply List.mem_filter.mpr
  refine ⟨List.mem_filter.mpr ⟨hc, havail⟩, ?_⟩
  have hval : c.validate_days (e - s) = Except.ok () := validate_days_ok c _ hmin hmax
  have hmo : CarRepo.maint_overlaps db c.id s e = false := by
    rw [maint_overlaps_eq_naive]
    unfold maint_overlaps_naive
    apply List.any_eq_false.mpr
    intro m hmem
    by_cases hcarm : m.car_id = c.id
    · simp [hcarm, hm m hmem hcarm]
    · simp [hcarm]
  have hbo : BookingRepo.car_has_overlap db c.id s e = false := by
    rw [car_has_overlap_eq_naive]
    unfold car_has_overlap_naive
    apply List.any_eq_false.mpr
    intro bk hmem
    by_cases hcarb : bk.car_id = c.id
    · by_cases hstb : bk.status = Status.approved
      · simp [hcarb, hstb, hb bk hmem hcarb hstb]
      · simp [hcarb, hstb]
    · simp [hcarb]
  simp [hval, hmo, hbo]

theorem available_in_range_complete_witness :
    ∃ l, CarRepo.available_in_range exDb0 10 12 none none = Except.ok l ∧ exCar ∈ l :=
  available_in_range_complete exDb0 10 12 exCar (by decide)
    (List.mem_singleton.mpr rfl) rfl (by decide) (by decide)
    (fun m hm => absurd hm (List.not_mem_nil m))
    (fun b hb => absurd hb (List.not_mem_nil b))

/-- A car identical to `exCar` except flagged not generally available. -/
def exCarOff : Car :=
  { id := 1, make := "Toyota", model := "Corolla", year := 2020, color := none,
    mileage := none, daily_rate := 50, available_now := false,
    min_days := 1, max_days := 30 }

def exDbOff : DB :=
  { cars := [exCarOff], maintenance := [], bookings := [], booking_charges := [] }

/-- C3 counterexample: `exCarOff` meets every condition the claim states —
the range `[10, 12)` is valid, its day count 2 lies within the car's
policy `[1, 30]`, and the store has no maintenance window and no booking
at all — yet `available_in_range` returns the empty list, because the
query starts from the cars flagged generally available and
`exCarOff.available_now = false`. -/
theorem available_claim_counterexample :
    exCarOff ∈ exDbOff.cars ∧
    exCarOff.min_days ≤ 12 - 10 ∧ 12 - 10 ≤ exCarOff.max_days ∧
    exDbOff.maintenance = [] ∧ exDbOff.bookings = [] ∧
    CarRepo.available_in_range exDbOff 10 12 none none = Except.ok [] ∧
    exCarOff.available_now = false :=
  ⟨List.mem_singleton.mpr rfl, by decide, by decide, rfl, rfl, rfl, rfl⟩

/-- C6: for an existing car, `create_pending` raises a domain error only on
an invalid range (`end ≤ start`) or a day count outside the car's
`[min_days, max_days]` policy; in every other case — regardless of what
pending or approved bookings or maintenance windows exist, and for any
extras — it inserts the booking with status `pending`.  No overlap check
of any kind appears in the case split. -/
theorem create_pending_lenient (db : DB) (u cid s e : Nat) (ex : List (String × ℚ))
    (car : Car) (hcar : CarRepo.get db cid = some car) :
    (e ≤ s → BookingRepo.create_pending db u cid s e ex =
      Except.error (Err.domainErr "end_date must be after start_date.")) ∧
    (s < e → e - s < car.min_days → BookingRepo.create_pending db u cid s e ex =
      Except.error (Err.domainErr ("Minimum rental days is " ++ toString car.min_days ++ "."))) ∧
    (s < e → car.min_days ≤ e - s → car.max_days < e - s →
      BookingRepo.create_pending db u cid s e ex =
      Except.error (Err.domainErr ("Maximum rental days is " ++ toString car.max_days ++ "."))) ∧
    (s < e → car.min_days ≤ e - s → e - s ≤ car.max_days →
      ∃ db' b, BookingRepo.create_pending db u cid s e ex = Except.ok (db', some b) ∧
        b.status = Status.pending ∧ db'.bookings = db.bookings ++ [b]) := by
  refine ⟨?_, ?_, ?_, ?_⟩
  · intro h
    unfold BookingRepo.create_pending
    rw [hcar]
    dsimp only
    rw [_days_err s e h]
  · intro h1 h2
    unfold BookingRepo.create_pending
    rw [hcar]
    dsimp only
    rw [_days_ok s e h1]
    dsimp only
    rw [validate_days_err_min car _ h2]
  · intro h1 h2 h3
    unfold BookingRepo.create_pending
    rw [hcar]
    dsimp only
    rw [_days_ok s e h1]
    dsimp only
    rw [validate_days_err_max car _ h2 h3]
  · intro h1 h2 h3
    obtain ⟨db', b, heq, _, _, _, _, _, _, hstat, hbk, _, _⟩ :=
      create_pending_success db u cid s e ex car (e - s) hcar (_days_ok s e h1)
        (validate_days_ok car _ h2 h3)
    exact ⟨db', b, heq, hstat, hbk⟩

theorem create_pending_lenient_witness :
    ∃ db' b, BookingRepo.create_pending exDbPM 8 1 10 12 [] = Except.ok (db', some b) ∧
      b.status = Status.pending ∧ db'.bookings = exDbPM.bookings ++ [b] :=
  (create_pending_lenient exDbPM 8 1 10 12 [] exCar rfl).2.2.2
    (by decide) (by decide) (by decide)

/-- C8: `recalc` stores and returns exactly
`round2 (daily_rate * stored_day_count + sum of current extra charges)`,
with the daily rate read fresh from the car's current row; running it a
second time without changing the charges returns the same total and leaves
the store fixed (idempotence). -/
theorem recalc_fee_correct (db : DB) (bid : Nat) (b : Booking) (car : Car)
    (hb : BookingRepo.get db bid = some b)
    (hcar : CarRepo.get db b.car_id = some car) :
    ∃ db', BookingRepo.recalc db bid = Except.ok (db',
        round2 (car.daily_rate * (b.days : ℚ) +
          ((BookingRepo.charges_for db bid).map (fun c => c.amount)).sum)) ∧
      BookingRepo.get db' bid = some { b with total_fee := (round2 (car.daily_rate *
        (b.days : ℚ) + ((BookingRepo.charges_for db bid).map (fun c => c.amount)).sum)) } ∧
      BookingRepo.recalc db' bid = Except.ok (db',
        round2 (car.daily_rate * (b.days : ℚ) +
          ((BookingRepo.charges_for db bid).map (fun c => c.amount)).sum)) := by
  set T := round2 (car.daily_rate * (b.days : ℚ) +
    ((BookingRepo.charges_for db bid).map (fun c => c.amount)).sum) with hT
  have h1 : BookingRepo.recalc db bid = Except.ok (updateBookingFee db bid T, T) := by
    unfold BookingRepo.recalc
    rw [hb]
    dsimp only
    rw [hcar]
    dsimp only
    rw [hT]
    rfl
  have hget1 : BookingRepo.get (updateBookingFee db bid T) bid =
      some { b with total_fee := T } :=
    get_updateBookingFee db bid b T hb
  refine ⟨updateBookingFee db bid T, h1, hget1, ?_⟩
  unfold BookingRepo.recalc
  rw [hget1]
  dsimp only
  have hcar1 : CarRepo.get (updateBookingFee db bid T) b.car_id = some car := hcar
  rw [hcar1]
  dsimp only
  exact congrArg (fun d => Except.ok (d, T)) (updateBookingFee_idem db bid T)

/-- A booking with one extra charge already stored, for the fee witness. -/
def exB8 : Booking :=
  { id := 1, user_id := 7, car_id := 1, start_date := 10, end_date := 13,
    days := 3, total_fee := 150, status := Status.pending }

def exCh8 : Charge := { id := 1, booking_id := 1, code := "INS", amount := 25 / 2 }

def exDb8 : DB :=
  { cars := exCars, maintenance := [], bookings := [exB8], booking_charges := [exCh8] }

theorem recalc_fee_correct_witness :
    ∃ db', BookingRepo.recalc exDb8 1 = Except.ok (db',
        round2 (exCar.daily_rate * ((3 : Nat) : ℚ) +
          ((BookingRepo.charges_for exDb8 1).map (fun c => c.amount)).sum)) ∧
      BookingRepo.get db' 1 = some { exB8 with total_fee := (round2 (exCar.daily_rate *
        ((3 : Nat) : ℚ) + ((BookingRepo.charges_for exDb8 1).map (fun c => c.amount)).sum)) } ∧
      BookingRepo.recalc db' 1 = Except.ok (db',
        round2 (exCar.daily_rate * ((3 : Nat) : ℚ) +
          ((BookingRepo.charges_for exDb8 1).map (fun c => c.amount)).sum)) :=
  recalc_fee_correct exDb8 1 exB8 exCar rfl rfl

/-- C7: the booking lifecycle.  (1) `create_pending` only ever inserts a
booking in state `pending`.  (2) On a booking that is not `pending`, both
`approve` and `reject` fail with the invalid-state domain error (and,
returning `Except.error`, change nothing).  (3) Consequently, under
distinct booking ids, every core-operation step preserves each
non-pending booking row verbatim: no transition leaves `approved` or
`rejected`. -/
theorem booking_state_machine :
    (∀ db u cid s e ex db' ob,
        BookingRepo.create_pending db u cid s e ex = Except.ok (db', ob) →
        ∃ b, db'.bookings = db.bookings ++ [b] ∧ b.status = Status.pending) ∧
    (∀ db bid b, BookingRepo.get db bid = some b → b.status ≠ Status.pending →
        BookingRepo.approve db bid =
          Except.error (Err.domainErr "Only pending bookings can be approved.") ∧
        BookingRepo.reject db bid =
          Except.error (Err.domainErr "Only pending bookings can be rejected.")) ∧
    (∀ db db', IdsInv db → Step db db' →
        ∀ b ∈ db.bookings, b.status ≠ Status.pending → b ∈ db'.bookings) := by
  refine ⟨?_, ?_, ?_⟩
  · intro db u cid s e ex db' ob hok
    obtain ⟨b, _, _, hstat, hbk, _, _⟩ := create_pending_ok_shape db u cid s e ex db' ob hok
    exact ⟨b, hbk, hstat⟩
  · intro db bid b hget hst
    constructor
    · unfold BookingRepo.approve
      rw [hget]
      dsimp only
      rw [if_pos hst]
    · unfold BookingRepo.reject
      rw [hget]
      dsimp only
      rw [if_pos hst]
  · intro db db' hn hs b hmem hst
    cases hs with
    | create_pending u cid s e ex _ ob hok =>
      obtain ⟨c, _, _, _, hbk, _, _⟩ := create_pending_ok_shape db u cid s e ex db' ob hok
      rw [hbk]
      exact List.mem_append_left _ hmem
    | approve bid _ hok =>
      obtain ⟨bk, hget, hpend, _, _, rfl⟩ := approve_ok_shape db bid db' hok
      have hbne : b.id ≠ bid := by
        intro hcontra
        obtain ⟨hmem2, hbkid⟩ := BookingRepo.get_some db bid bk hget
        have : b = bk := eq_of_mem_of_id_eq db.bookings hn hmem hmem2 (by rw [hcontra, hbkid])
        rw [this] at hst
        exact hst hpend
      have hfix : (fun x : Booking =>
          if x.id == bid then { x with status := Status.approved } else x) b = b := by
        simp [hbne]
      unfold updateStatus
      dsimp only
      exact hfix ▸ List.mem_map_of_mem _ hmem
    | reject bid _ hok =>
      obtain ⟨bk, hget, hpend, rfl⟩ := reject_ok_shape db bid db' hok
      have hbne : b.id ≠ bid := by
        intro hcontra
        obtain ⟨hmem2, hbkid⟩ := BookingRepo.get_some db bid bk hget
        have : b = bk := eq_of_mem_of_id_eq db.bookings hn hmem hmem2 (by rw [hcontra, hbkid])
        rw [this] at hst
        exact hst hpend
      have hfix : (fun x : Booking =>
          if x.id == bid then { x with status := Status.rejected } else x) b = b := by
        simp [hbne]
      unfold updateStatus
      dsimp only
      exact hfix ▸ List.mem_map_of_mem _ hmem
    | maint_open cid ty sd cost notes => exact hmem
    | maint_close mid ed today notes => exact hmem

theorem booking_state_machine_witness :
    BookingRepo.approve exDb2 1 =
      Except.error (Err.domainErr "Only pending bookings can be approved.") ∧
    BookingRepo.reject exDb2 1 =
      Except.error (Err.domainErr "Only pending bookings can be rejected.") :=
  booking_state_machine.2.1 exDb2 1 { exB with status := Status.approved } rfl (by decide)

/-- C1 (amended): in every state reachable by the core operations
(`create_pending`, `approve`, `reject`, `maint_open`, `maint_close`) from
a store holding only cars, no two APPROVED bookings for the same car
overlap in time; the maintenance half of the invariant is enforced only at
the pending-to-approved transition: a successful `approve` guarantees the
newly approved booking overlaps no maintenance window present at that
moment, but `maint_open`/`maint_close` run no conflict check against
approved bookings, so the booking-versus-maintenance property is not
preserved afterwards (see the counterexample). -/
theorem reachable_no_approved_overlap (cars : List Car) (db : DB)
    (h : Reachable cars db) :
    BookingsInv db ∧
    (∀ bid b db', BookingRepo.get db bid = some b →
      BookingRepo.approve db bid = Except.ok db' →
      ∀ m ∈ db'.maintenance, m.car_id = b.car_id →
        m.overlaps b.start_date b.end_date = false) := by
  refine ⟨(reachable_inv cars db h).1, ?_⟩
  intro bid b db' hget hok m hm hcar
  obtain ⟨bk, hget2, hst, hmo, ho, rfl⟩ := approve_ok_shape db bid db' hok
  have hbb : bk = b := by
    rw [hget] at hget2
    exact (Option.some.injEq bk b).mp hget2.symm
  subst hbb
  exact not_maint_overlaps db bk.car_id bk.start_date bk.end_date hmo m hm hcar

theorem reachable_no_approved_overlap_witness : BookingsInv exDb2 :=
  (reachable_no_approved_overlap exCars exDb2
    (Reachable.step exDb1 exDb2
      (Reachable.step exDb0 exDb1 Reachable.init
        (Step.create_pending exDb0 7 1 10 12 [] exDb1 (some exB) exDb1_create))
      (Step.approve exDb1 1 exDb2 exDb2_approve))).1

/-- C1 counterexample: the three-step trace
`create_pending (creating booking [10,12) on car 1)`, `approve`,
`maint_open (opening a window on car 1 from day 5)` is reachable by the
core operations, yet in the resulting store the approved booking overlaps
the open maintenance window of its own car: the full stated invariant does
not hold in every reachable state, because `maint_open` checks nothing. -/
theorem full_invariant_not_preserved :
    Reachable exCars exDb3 ∧ ¬ FullInv exDb3 := by
  constructor
  · exact Reachable.step exDb2 exDb3
      (Reachable.step exDb1 exDb2
        (Reachable.step exDb0 exDb1 Reachable.init
          (Step.create_pending exDb0 7 1 10 12 [] exDb1 (some exB) exDb1_create))
        (Step.approve exDb1 1 exDb2 exDb2_approve))
      exDb3_step
  · rintro ⟨-, hm⟩
    have hres := hm { exB with status := Status.approved } (List.mem_singleton.mpr rfl) rfl
      exM (List.mem_singleton.mpr rfl) rfl
    exact absurd hres (by decide)

end DodsCars
